import Mathlib

/-!
Verification development for the riscv-pvm revm kernel.

We shallowly embed the kernel's durable-storage database adapter
(`kernel/src/database.rs`), its inbox parser and main loop
(`kernel/src/main.rs`), and the operation codec / authenticator
(`utils/src/crypto.rs`), and prove or refute the frozen specification
claims against these definitions.

Conventions of the embedding:
- machine integers (`U256`, `u64`, `B256`, addresses) are modelled as `Nat`;
  none of the claims depend on overflow behaviour of these quantities;
- byte buffers are `List UInt8`;
- fallible Rust code returning `Result` is modelled with `Except`;
- the host `Runtime` trait is a record of state-passing functions over an
  abstract state `σ`; the concrete host used by the theorems (`good`) keeps
  a map from storage keys to byte values plus a log of every host-level
  `store_write` call (key and chunk written), which lets us state
  write-count properties;
- `bincode` serialization is an external library, so it is a `Codec`
  parameter (an encode function and a decode function); theorems that need
  its round-trip behaviour take it as an explicit hypothesis.
-/

/-- Storage keys.  `database_utils.rs` renders these as the disjoint paths
`/i/<address>`, `/c/<code_hash>` and `/s/<address>/<key>`; the three
namespaces never collide and each key is a leaf, which the inductive
representation captures directly. -/
inductive SKey where
  | info (addr : Nat)
  | codeK (hash : Nat)
  | slotK (addr : Nat) (key : Nat)
deriving DecidableEq

/-- Host runtime errors (`tezos_smart_rollup::host::RuntimeError`): the
path-not-found case is distinguished because `store_read` branches on it. -/
inductive RErr where
  | pathNotFound
  | hostErr
deriving DecidableEq

/-- `KernelError` from `database_utils.rs`. -/
inductive KernelError where
  | missingCode (hash : Nat)
  | durableStorage (e : RErr)
  | encodeErr
  | decodeErr
deriving DecidableEq

/-- The host `Runtime` interface consumed by the database adapter
(`store_write`, `store_value_size`, `store_read_slice`, `store_delete`,
`store_has`), as state-passing functions over an abstract host state. -/
structure Runtime (σ : Type) where
  write : σ → SKey → List UInt8 → Nat → Except RErr σ
  valueSize : σ → SKey → Except RErr Nat
  readSlice : σ → SKey → Nat → Nat → Except RErr (List UInt8)
  delete : σ → SKey → Except RErr σ
  has : σ → SKey → Except RErr Bool

/-- Concrete host state: the durable store contents plus a log of every
host-level write call (key and chunk), in order. -/
structure GoodState where
  store : SKey → Option (List UInt8)
  writes : List (SKey × List UInt8)

/-- Pointwise update of a store map. -/
def upd (f : SKey → Option (List UInt8)) (k : SKey) (v : List UInt8) :
    SKey → Option (List UInt8) :=
  fun k' => if k' = k then some v else f k'

/-- The well-behaved host: `write` overwrites `chunk.length` bytes at the
given offset (the offset must not exceed the current size, as in the real
host), `valueSize`/`readSlice` fail with `pathNotFound` on absent keys,
`delete` removes the key (each key is a leaf; deleting an absent path is a
host error), `has` reports key presence. -/
def good : Runtime GoodState where
  write s k chunk off :=
    let old := (s.store k).getD []
    if off ≤ old.length then
      .ok ⟨upd s.store k (old.take off ++ chunk ++ old.drop (off + chunk.length)),
           s.writes ++ [(k, chunk)]⟩
    else .error .hostErr
  valueSize s k :=
    match s.store k with
    | none => .error .pathNotFound
    | some v => .ok v.length
  readSlice s k off len :=
    match s.store k with
    | none => .error .pathNotFound
    | some v => .ok ((v.drop off).take len)
  delete s k :=
    match s.store k with
    | none => .error .pathNotFound
    | some _ => .ok ⟨fun k' => if k' = k then none else s.store k', s.writes⟩
  has s k := .ok (s.store k).isSome

/-- The empty host state. -/
def emptyGS : GoodState := ⟨fun _ => none, []⟩

/-- `MAX_FILE_CHUNK_SIZE`: the host's fixed per-call chunk limit. -/
def MAX_CHUNK : Nat := 2048

/-- Fuelled worker for `chunksOf` (fuel bounds the recursion; any fuel at
least the list length gives the real chunk decomposition). -/
def chunksGo : Nat → Nat → List UInt8 → List (List UInt8)
  | _, _, [] => []
  | 0, _, l => [l]
  | fuel + 1, n, a :: l => ((a :: l).take n) :: chunksGo fuel n ((a :: l).drop n)

/-- `bytes.chunks(n)` from Rust: split a byte list into consecutive chunks
of size `n` (the last chunk may be shorter); the empty list yields no
chunks. -/
def chunksOf (n : Nat) (l : List UInt8) : List (List UInt8) :=
  chunksGo l.length n l

/-- The write loop of `KernelDB::store_write`: write each chunk at offset
`i * MAX_CHUNK`, in order. -/
def writeChunks {σ : Type} (R : Runtime σ) (k : SKey) :
    List (List UInt8) → Nat → σ → Except RErr σ
  | [], _, s => .ok s
  | c :: rest, i, s =>
    match R.write s k c (i * MAX_CHUNK) with
    | .error e => .error e
    | .ok s' => writeChunks R k rest (i + 1) s'

/-- A `bincode` codec for a stored type: serialization to bytes and
deserialization from a byte buffer (`decode_from_slice` reads a prefix of
the buffer). -/
structure Codec (α : Type) where
  enc : α → List UInt8
  dec : List UInt8 → Option α

/-- `KernelDB::store_write`: serialize once, then write the chunks at their
offsets in order (`database.rs` lines 50-61). -/
def store_write {σ α : Type} (R : Runtime σ) (c : Codec α) (k : SKey) (v : α)
    (s : σ) : Except KernelError σ :=
  match writeChunks R k (chunksOf MAX_CHUNK (c.enc v)) 0 s with
  | .ok s' => .ok s'
  | .error e => .error (.durableStorage e)

/-- The read loop of `KernelDB::store_read`: `count` iterations, reading the
slice `[i * MAX_CHUNK, min n ((i+1) * MAX_CHUNK))` at step `i` and
concatenating (the Rust code reads into disjoint slices of one buffer). -/
def readChunks {σ : Type} (R : Runtime σ) (s : σ) (k : SKey) (n : Nat) :
    Nat → Nat → Except RErr (List UInt8)
  | 0, _ => .ok []
  | count + 1, i =>
    match R.readSlice s k (i * MAX_CHUNK) (min n ((i + 1) * MAX_CHUNK) - i * MAX_CHUNK) with
    | .error e => .error e
    | .ok bytes =>
      match readChunks R s k n count (i + 1) with
      | .error e => .error e
      | .ok rest => .ok (bytes ++ rest)

/-- `KernelDB::store_read` (`database.rs` lines 62-81): query the value
size (absent key gives `Ok(None)`), read `n.div_ceil(MAX_CHUNK)` chunks
into one buffer, deserialize once. -/
def store_read {σ α : Type} (R : Runtime σ) (c : Codec α) (s : σ) (k : SKey) :
    Except KernelError (Option α) :=
  match R.valueSize s k with
  | .error .pathNotFound => .ok none
  | .error e => .error (.durableStorage e)
  | .ok n =>
    match readChunks R s k n ((n + MAX_CHUNK - 1) / MAX_CHUNK) 0 with
    | .error e => .error (.durableStorage e)
    | .ok buf =>
      match c.dec buf with
      | some v => .ok (some v)
      | none => .error .decodeErr

/-- The `KECCAK_EMPTY` sentinel (keccak-256 of the empty byte string),
revm's "no code" code hash. -/
def KECCAK_EMPTY : Nat :=
  0xc5d2460186f7233c927e7db2dcc703c0e500b653ca82273b7bfad8045d85a470

/-- revm's `AccountInfo`: balance, nonce, code hash, and optionally the
code bytes carried in memory (never meant to be persisted). -/
structure AccountInfo where
  balance : Nat
  nonce : Nat
  codeHash : Nat
  code : Option (List UInt8)
deriving DecidableEq

/-- `AccountInfo::default()`: the zero-valued record, whose code hash is
the empty-code sentinel. -/
def AccountInfo.default : AccountInfo :=
  ⟨0, 0, KECCAK_EMPTY, none⟩

/-- revm's `Account` as consumed by `commit`: the info, the modified
storage slots (key and present value), and the touched / self-destructed
status flags. -/
structure Account where
  info : AccountInfo
  storage : List (Nat × Nat)
  touched : Bool
  selfdestructed : Bool
deriving DecidableEq

/-- The codecs the database adapter instantiates `bincode` at: one for
`AccountInfo`, one for `Bytecode` (byte lists), one for `U256` storage
values. -/
structure DBCodecs where
  cAcc : Codec AccountInfo
  cCode : Codec (List UInt8)
  cVal : Codec Nat

/-- `KernelDB::insert_contract` (`database.rs` lines 35-49), with `κ`
standing for `Bytecode::hash_slow` (keccak-256 of the code).  If the
account carries non-empty code: hash it when the recorded hash is still
the `KECCAK_EMPTY` placeholder, then write the code under the code
namespace; afterwards, a zero code hash is replaced by `KECCAK_EMPTY`.
Returns the updated `AccountInfo` together with the host state. -/
def insert_contract {σ : Type} (R : Runtime σ) (C : DBCodecs)
    (κ : List UInt8 → Nat) (a : AccountInfo) (s : σ) :
    Except KernelError (AccountInfo × σ) :=
  let step1 : Except KernelError (AccountInfo × σ) :=
    match a.code with
    | some code =>
      if code ≠ [] then
        let h := if a.codeHash = KECCAK_EMPTY then κ code else a.codeHash
        match store_write R C.cCode (.codeK h) code s with
        | .error e => .error e
        | .ok s' => .ok ({ a with codeHash := h }, s')
      else .ok (a, s)
    | none => .ok (a, s)
  match step1 with
  | .error e => .error e
  | .ok (a', s') =>
    if a'.codeHash = 0 then .ok ({ a' with codeHash := KECCAK_EMPTY }, s')
    else .ok (a', s')

/-- `KernelDB::insert_new_account` (`database.rs` lines 82-85): persist a
zero-valued `AccountInfo` under the account-info namespace. -/
def insert_new_account {σ : Type} (R : Runtime σ) (C : DBCodecs) (addr : Nat)
    (s : σ) : Except KernelError σ :=
  store_write R C.cAcc (.info addr) AccountInfo.default s

/-- `KernelDB::clear_storage` (`database.rs` lines 86-89): it calls
`store_delete` on the path built by `Info(address)`, i.e. on
`/i/<address>` — the account-info key, not the storage subtree. -/
def clear_storage {σ : Type} (R : Runtime σ) (addr : Nat) (s : σ) :
    Except KernelError σ :=
  match R.delete s (.info addr) with
  | .error e => .error (.durableStorage e)
  | .ok s' => .ok s'

/-- The slot-write loop at the end of a `commit_safe` iteration. -/
def writeSlots {σ : Type} (R : Runtime σ) (C : DBCodecs) (addr : Nat) :
    List (Nat × Nat) → σ → Except KernelError σ
  | [], s => .ok s
  | (key, value) :: rest, s =>
    match store_write R C.cVal (.slotK addr key) value s with
    | .error e => .error e
    | .ok s' => writeSlots R C addr rest s'

/-- `KernelDB::commit_safe` (`database.rs` lines 92-113): for each entry,
skip untouched accounts; for self-destructed accounts write a fresh
zero-valued record and then call `clear_storage`; otherwise run
`insert_contract`, drop the in-memory code bytes from the record, persist
the record, and persist every modified storage slot. -/
def commit_safe {σ : Type} (R : Runtime σ) (C : DBCodecs)
    (κ : List UInt8 → Nat) : List (Nat × Account) → σ → Except KernelError σ
  | [], s => .ok s
  | (addr, account) :: rest, s =>
    if !account.touched then commit_safe R C κ rest s
    else if account.selfdestructed then
      match insert_new_account R C addr s with
      | .error e => .error e
      | .ok s1 =>
        match clear_storage R addr s1 with
        | .error e => .error e
        | .ok s2 => commit_safe R C κ rest s2
    else
      match insert_contract R C κ account.info s with
      | .error e => .error e
      | .ok (info', s1) =>
        let infoStripped := { info' with code := none }
        match store_write R C.cAcc (.info addr) infoStripped s1 with
        | .error e => .error e
        | .ok s2 =>
          match writeSlots R C addr account.storage s2 with
          | .error e => .error e
          | .ok s3 => commit_safe R C κ rest s3

/-- The `DatabaseCommit::commit` impl (`database.rs` lines 152-157): it
runs `commit_safe` and calls `.unwrap()` on the result; an error therefore
aborts the process.  The panic is modelled as `none`. -/
def commitUnwrap {σ : Type} (R : Runtime σ) (C : DBCodecs)
    (κ : List UInt8 → Nat) (changes : List (Nat × Account)) (s : σ) :
    Option σ :=
  (commit_safe R C κ changes s).toOption

/-- `Database::basic` (`database.rs` lines 121-129): a present key is
decoded and returned; an absent key is lazily materialized with a
zero-valued record, and `None` is returned. -/
def basic {σ : Type} (R : Runtime σ) (C : DBCodecs) (addr : Nat) (s : σ) :
    Except KernelError (Option AccountInfo × σ) :=
  match store_read R C.cAcc s (.info addr) with
  | .error e => .error e
  | .ok (some info) => .ok (some info, s)
  | .ok none =>
    match insert_new_account R C addr s with
    | .error e => .error e
    | .ok s' => .ok (none, s')

/-- `Database::code_by_hash` (`database.rs` lines 130-133). -/
def code_by_hash {σ : Type} (R : Runtime σ) (C : DBCodecs) (hash : Nat)
    (s : σ) : Except KernelError (List UInt8) :=
  match store_read R C.cCode s (.codeK hash) with
  | .error e => .error e
  | .ok (some code) => .ok code
  | .ok none => .error (.missingCode hash)

/-- `Database::storage` (`database.rs` lines 134-144): a present slot is
returned; on an absent slot the code checks `store_has` on the
account-info key and, when that key EXISTS, overwrites it with a fresh
zero-valued record, then returns zero. -/
def storageFn {σ : Type} (R : Runtime σ) (C : DBCodecs) (addr : Nat)
    (index : Nat) (s : σ) : Except KernelError (Nat × σ) :=
  match store_read R C.cVal s (.slotK addr index) with
  | .error e => .error e
  | .ok (some val) => .ok (val, s)
  | .ok none =>
    match R.has s (.info addr) with
    | .error e => .error (.durableStorage e)
    | .ok true =>
      match insert_new_account R C addr s with
      | .error e => .error e
      | .ok s' => .ok (0, s')
    | .ok false => .ok (0, s)

/-!  Operation codec and authenticator (`utils/src/crypto.rs`).

The transaction body type `TxEnv`, the `bincode` canonical encoding, the
`blake2b` digest (`digest_256`) and the `jstz_crypto` signature scheme are
external libraries; they enter the model as parameters.  What the
repository itself contributes — hashing the canonical encoding of the
inner operation and checking the signature against that hash — is
modelled directly. -/

/-- An abstract signature scheme (`jstz_crypto`): secret keys, public
keys, signatures, `SecretKey::sign`, `Signature::verify`, and the
secret-to-public correspondence. -/
structure SigScheme (Pk Sk Sig : Type) where
  sign : Sk → List UInt8 → Sig
  check : Sig → Pk → List UInt8 → Bool
  pkOf : Sk → Pk

/-- `Operation` (`crypto.rs`): a wrapper around revm's `TxEnv`. -/
structure Operation (τ : Type) where
  tx : τ

/-- `Operation::hash`: blake2b digest of the canonical `bincode` encoding
of the inner `TxEnv` (`crypto.rs` lines 21-24).  `enc` is the canonical
encoder, `digest` is `digest_256`. -/
def Operation.opHash {τ : Type} (enc : τ → List UInt8)
    (digest : List UInt8 → List UInt8) (op : Operation τ) : List UInt8 :=
  digest (enc op.tx)

/-- `SignedOperation`: the operation plus the public key and the signature
over its canonical hash. -/
structure SignedOperation (Pk Sig τ : Type) where
  publicKey : Pk
  signature : Sig
  inner : Operation τ

/-- `SignedOperation::verify` (`crypto.rs` lines 92-97): recompute the
inner operation's hash, check the signature against the public key over
that hash, and on success return the inner operation. -/
def SignedOperation.verify {Pk Sk Sig τ : Type} (S : SigScheme Pk Sk Sig)
    (enc : τ → List UInt8) (digest : List UInt8 → List UInt8)
    (so : SignedOperation Pk Sig τ) : Option (Operation τ) :=
  let hash := so.inner.opHash enc digest
  if S.check so.signature so.publicKey hash then some so.inner else none

/-- `Account::operation_to_message`'s signing step (`bench/src/generate.rs`
lines 86-90): sign the operation's canonical hash with the secret key and
wrap everything in a `SignedOperation`. -/
def mkSignedOperation {Pk Sk Sig τ : Type} (S : SigScheme Pk Sk Sig)
    (enc : τ → List UInt8) (digest : List UInt8 → List UInt8) (sk : Sk)
    (op : Operation τ) : SignedOperation Pk Sig τ :=
  ⟨S.pkOf sk, S.sign sk (op.opHash enc digest), op⟩

/-!  Inbox protocol parser and kernel loop (`kernel/src/main.rs`). -/

/-- `LogType` (`utils/src/data_interface.rs`). -/
inductive LogType where
  | startOfLevel
  | deploy
  | execute (bytes : List UInt8)
  | endOfLevel
  | error (msg : String)
  | info (msg : String)
deriving DecidableEq

/-- `InboxResult` (`main.rs` lines 23-27), parametrized by the transaction
payload type (`TxEnv`). -/
inductive InboxResult (τ : Type) where
  | inboxEmpty
  | log (l : LogType)
  | txEnv (tx : τ)
deriving DecidableEq

/-- An internal inbox message
(`tezos_smart_rollup::inbox::InternalInboxMessage`). -/
inductive InternalMsg where
  | startOfLevel
  | infoPerLevel (predecessor : String) (predecessorTimestamp : String)
  | endOfLevel
  | transfer
deriving DecidableEq

/-- A decoded inbox envelope (`InboxMessage`): an external payload or an
internal message. -/
inductive InboxMsg where
  | external (bytes : List UInt8)
  | internal (m : InternalMsg)
deriving DecidableEq

/-- A parsed external message frame
(`ExternalMessageFrame::Targetted`): the target rollup address and the
opaque contents. -/
structure Frame where
  targetAddr : Nat
  contents : List UInt8
deriving DecidableEq

/-- `to_inbox_result` (`main.rs` lines 30-39): an error becomes an error
log record; a success is passed to the continuation.  Error formatting
(`format!("{:?}", e)`) is modelled by using `String` errors directly. -/
def to_inbox_result {α τ : Type} (res : Except String α)
    (f : α → InboxResult τ) : InboxResult τ :=
  match res with
  | .error e => .log (.error e)
  | .ok t => f t

/-- `get_inbox_message` (`main.rs` lines 49-98), with the host inbox
primitive and the external parsers as parameters:
`readInput` is `host.read_input()`, `parseInbox` is
`InboxMessage::parse`, `parseFrame` is `ExternalMessageFrame::parse`,
`decodeSigned` is the bincode decoding of the payload into a
`SignedOperation`, and `verifyOp` is `SignedOperation::verify` (whose
failure the code turns into the error string "verification failed"). -/
def get_inbox_message {ρ so τ : Type} (own : Nat)
    (readInput : Except String (Option ρ))
    (parseInbox : ρ → Except String InboxMsg)
    (parseFrame : List UInt8 → Except String Frame)
    (decodeSigned : List UInt8 → Except String so)
    (verifyOp : so → Option τ) : InboxResult τ :=
  to_inbox_result readInput fun maybeInp =>
    match maybeInp with
    | none => .inboxEmpty
    | some inp =>
      to_inbox_result (parseInbox inp) fun message =>
        match message with
        | .external bytes =>
          to_inbox_result (parseFrame bytes) fun frame =>
            if own ≠ frame.targetAddr then
              .log (.info "Skipping message: External message targets another rollup")
            else
              to_inbox_result (decodeSigned frame.contents) fun signedOp =>
                to_inbox_result
                  (match verifyOp signedOp with
                   | some op => .ok op
                   | none => .error "verification failed")
                  fun op => .txEnv op
        | .internal m =>
          match m with
          | .startOfLevel => .log .startOfLevel
          | .infoPerLevel p t =>
            .log (.info ("Internal message: level info (block predecessor: "
              ++ p ++ ", predecessor_timestamp: " ++ t))
          | .endOfLevel => .log .endOfLevel
          | .transfer => .log (.info "Internal message: transfer")

/-- `ExecutionResult` and `Output` from revm, as consumed by `handle_res`. -/
inductive ExecOutput where
  | create
  | call (bytes : List UInt8)
deriving DecidableEq

/-- revm's transaction execution result. -/
inductive ExecutionResult where
  | success (output : ExecOutput)
  | revert
  | halt (reason : String)
deriving DecidableEq

/-- `handle_res` (`main.rs` lines 139-155). -/
def handle_res : ExecutionResult → LogType
  | .success .create => .deploy
  | .success (.call bytes) => .execute bytes
  | .revert => .error "Smart contract execution reverted"
  | .halt reason => .error ("Halt: reason - " ++ reason)

/-- Observable events of one `entry` loop iteration: reading the next
classified inbox result, executing-and-committing a transaction against
the EVM's own database, emitting a structured log line via `debug_msg`,
and (never produced by this code) committing to the durable store. -/
inductive KEvent (τ : Type) where
  | readMsg (m : InboxResult τ)
  | execCommit (tx : τ)
  | emitLog (l : LogType)
  | storeCommit
deriving DecidableEq

/-- The log record the loop emits for one executed transaction: on engine
success the translation of `handle_res`, on engine failure the
"Unsuccessful transaction" error record (`main.rs` lines 113-125). -/
def txLog : Except String ExecutionResult → LogType
  | .ok r => handle_res r
  | .error e => .error ("Unsuccessful transaction: " ++ e)

/-- The `entry` loop (`main.rs` lines 105-137).  The EVM is built over
`CacheDB::<EmptyDB>::default()`, so `transact_commit` acts on the
in-memory EVM state `evm` (type `ε`, engine `engine` standing for
`evm.transact_commit`); the durable host store `dur` is threaded through
untouched — the loop's only host interaction besides the inbox is
`debug_msg`, which writes to the debug log channel, not to storage.  The
inbox is the list of successive `get_inbox_message` results; an exhausted
inbox yields `InboxEmpty`.  The returned trace records each read, each
transaction commit and each emitted log, in order. -/
def entryLoop {τ ε : Type} (engine : ε → τ → ε × Except String ExecutionResult) :
    List (InboxResult τ) → ε → GoodState → List (KEvent τ) × ε × GoodState
  | [], evm, dur => ([.readMsg .inboxEmpty], evm, dur)
  | m :: rest, evm, dur =>
    match m with
    | .inboxEmpty => ([.readMsg .inboxEmpty], evm, dur)
    | .log l =>
      let (tr, evm', dur') := entryLoop engine rest evm dur
      (.readMsg (.log l) :: .emitLog l :: tr, evm', dur')
    | .txEnv tx =>
      let (evm', res) := engine evm tx
      let (tr, evm'', dur') := entryLoop engine rest evm' dur
      (.readMsg (.txEnv tx) :: .execCommit tx :: .emitLog (txLog res) :: tr,
       evm'', dur')

/-- The inbox results actually consumed by the loop: everything up to (and
including) the first `inboxEmpty`, with the terminal `inboxEmpty` read
made explicit. -/
def consumed {τ : Type} : List (InboxResult τ) → List (InboxResult τ)
  | [] => [.inboxEmpty]
  | .inboxEmpty :: _ => [.inboxEmpty]
  | m :: rest => m :: consumed rest

/-- The sequence of inbox reads recorded in a trace. -/
def readsOf {τ : Type} (tr : List (KEvent τ)) : List (InboxResult τ) :=
  tr.filterMap fun e =>
    match e with
    | .readMsg m => some m
    | _ => none

/-- The sequence of committed transactions recorded in a trace. -/
def commitsOf {τ : Type} (tr : List (KEvent τ)) : List τ :=
  tr.filterMap fun e =>
    match e with
    | .execCommit tx => some tx
    | _ => none

/-- The transactions carried by a list of inbox results, in order. -/
def txsOf {τ : Type} (ms : List (InboxResult τ)) : List τ :=
  ms.filterMap fun m =>
    match m with
    | .txEnv tx => some tx
    | _ => none

/-!  Concrete instances used by counterexamples and witnesses.  The
codecs below are small executable stand-ins for `bincode` at the types the
kernel stores; the theorems that depend on `bincode`'s round-trip
behaviour state it as a hypothesis, which these instances satisfy. -/

/-- A concrete test codec for `AccountInfo` (one byte per field, a flag
byte for the code option). -/
def accCodec : Codec AccountInfo where
  enc i := [UInt8.ofNat i.balance, UInt8.ofNat i.nonce, UInt8.ofNat i.codeHash,
            if i.code.isSome then 1 else 0]
  dec bs :=
    match bs with
    | b :: n :: h :: c :: _ =>
      some ⟨b.toNat, n.toNat, h.toNat, if c = 1 then some [] else none⟩
    | _ => none

/-- A concrete test codec for raw byte lists. -/
def bytesCodec : Codec (List UInt8) where
  enc bs := bs
  dec bs := some bs

/-- A concrete test codec for storage values. -/
def natCodec : Codec Nat where
  enc n := [UInt8.ofNat n]
  dec bs :=
    match bs with
    | b :: _ => some b.toNat
    | [] => none

/-- The bundle of test codecs for the database adapter. -/
def toyCodecs : DBCodecs := ⟨accCodec, bytesCodec, natCodec⟩

/-- A concrete single-byte codec (used to witness the chunked round
trip). -/
def u8Codec : Codec UInt8 where
  enc b := [b]
  dec bs :=
    match bs with
    | b :: _ => some b
    | [] => none

/-- The codec of a zero-sized type: `bincode` encodes the Rust unit type
to the empty byte string and decodes it from any buffer. -/
def unitCodec : Codec Unit where
  enc _ := []
  dec _ := some ()

/-- A host on which every storage primitive fails with an I/O error. -/
def badR : Runtime Unit where
  write _ _ _ _ := .error .hostErr
  valueSize _ _ := .error .hostErr
  readSlice _ _ _ _ := .error .hostErr
  delete _ _ := .error .hostErr
  has _ _ := .error .hostErr

/-!  Chunked-I/O lemmas about the well-behaved host. -/

theorem upd_self (f : SKey → Option (List UInt8)) (k : SKey) (v : List UInt8) :
    upd f k v k = some v := by
  simp [upd]

theorem upd_ne (f : SKey → Option (List UInt8)) {k k' : SKey}
    (v : List UInt8) (h : k' ≠ k) : upd f k v k' = f k' := by
  simp [upd, h]

theorem chunksGo_fuel (n : Nat) (hn : 0 < n) :
    ∀ (f₁ f₂ : Nat) (l : List UInt8), l.length ≤ f₁ → l.length ≤ f₂ →
      chunksGo f₁ n l = chunksGo f₂ n l := by
  intro f₁
  induction f₁ with
  | zero =>
    intro f₂ l h₁ _
    cases l with
    | nil => cases f₂ <;> rfl
    | cons a l => simp at h₁
  | succ f₁ ih =>
    intro f₂ l h₁ h₂
    cases l with
    | nil => cases f₂ <;> rfl
    | cons a l =>
      cases f₂ with
      | zero => simp at h₂
      | succ f₂ =>
        simp only [chunksGo]
        congr 1
        apply ih
        · simp only [List.length_drop, List.length_cons]
          simp only [List.length_cons] at h₁
          omega
        · simp only [List.length_drop, List.length_cons]
          simp only [List.length_cons] at h₂
          omega

theorem chunksOf_nil (n : Nat) : chunksOf n [] = [] := rfl

theorem chunksOf_cons (n : Nat) (hn : 0 < n) (a : UInt8) (l : List UInt8) :
    chunksOf n (a :: l) = (a :: l).take n :: chunksOf n ((a :: l).drop n) := by
  have hlen : ((a :: l).drop n).length ≤ l.length := by
    simp only [List.length_drop, List.length_cons]
    omega
  simp only [chunksOf, List.length_cons, chunksGo]
  congr 1
  exact chunksGo_fuel n hn l.length ((a :: l).drop n).length _ hlen le_rfl

theorem upd_upd (f : SKey → Option (List UInt8)) (k : SKey)
    (v v' : List UInt8) : upd (upd f k v) k v' = upd f k v' := by
  funext k'
  simp only [upd]
  split <;> rfl

theorem MAX_CHUNK_pos : 0 < MAX_CHUNK := by decide

theorem writeChunks_good :
    ∀ (N : Nat) (bytes : List UInt8), bytes.length ≤ N → bytes ≠ [] →
    ∀ (i : Nat) (pre suffix : List UInt8) (s : GoodState) (k : SKey),
      (s.store k).getD [] = pre ++ suffix →
      pre.length = i * MAX_CHUNK →
      writeChunks good k (chunksOf MAX_CHUNK bytes) i s =
        .ok ⟨upd s.store k (pre ++ (bytes ++ suffix.drop bytes.length)),
             s.writes ++ (chunksOf MAX_CHUNK bytes).map (fun c => (k, c))⟩ := by
  intro N
  induction N with
  | zero =>
    intro bytes hlen hne
    cases bytes with
    | nil => exact absurd rfl hne
    | cons a l => simp at hlen
  | succ N ih =>
    intro bytes hlen hne i pre suffix s k hold hpre
    cases bytes with
    | nil => exact absurd rfl hne
    | cons a l =>
      rw [chunksOf_cons MAX_CHUNK MAX_CHUNK_pos]
      set c := (a :: l).take MAX_CHUNK with hc
      have hguard : i * MAX_CHUNK ≤ ((s.store k).getD []).length := by
        rw [hold, List.length_append, ← hpre]
        omega
      have hwrite1 :
          good.write s k c (i * MAX_CHUNK) =
            .ok ⟨upd s.store k (pre ++ (c ++ suffix.drop c.length)),
                 s.writes ++ [(k, c)]⟩ := by
        simp only [good, hguard, if_pos]
        congr 2
        rw [hold]
        have htake : (pre ++ suffix).take (i * MAX_CHUNK) = pre := by
          rw [← hpre]
          exact List.take_left pre suffix
        have hdrop : (pre ++ suffix).drop (i * MAX_CHUNK + c.length) =
            suffix.drop c.length := by
          rw [← hpre, ← List.drop_drop, List.drop_left]
        rw [htake, hdrop, List.append_assoc]
      simp only [writeChunks, hwrite1]
      by_cases hfit : (a :: l).length ≤ MAX_CHUNK
      · have hcall : c = a :: l := List.take_of_length_le hfit
        have hdropnil : (a :: l).drop MAX_CHUNK = [] :=
          List.drop_eq_nil_of_le hfit
        rw [hdropnil, chunksOf_nil]
        simp only [writeChunks, List.map_cons, List.map_nil, hcall]
      · push_neg at hfit
        have hclen : c.length = MAX_CHUNK := by
          rw [hc, List.length_take]
          omega
        set bytes' := (a :: l).drop MAX_CHUNK with hb'
        have hb'len : bytes'.length = (a :: l).length - MAX_CHUNK := by
          rw [hb', List.length_drop]
        have hb'ne : bytes' ≠ [] := by
          have hpos : 0 < bytes'.length := by
            rw [hb'len]
            omega
          intro hcontra
          rw [hcontra] at hpos
          simp at hpos
        have hb'le : bytes'.length ≤ N := by
          have := MAX_CHUNK_pos
          rw [hb'len]
          omega
        set s1 : GoodState :=
          ⟨upd s.store k (pre ++ (c ++ suffix.drop c.length)),
           s.writes ++ [(k, c)]⟩ with hs1
        have hold1 : (s1.store k).getD [] = (pre ++ c) ++ (suffix.drop c.length) := by
          rw [hs1]
          simp only [upd_self, Option.getD_some, List.append_assoc]
        have hpre1 : (pre ++ c).length = (i + 1) * MAX_CHUNK := by
          rw [List.length_append, hpre, hclen]
          ring
        have := ih bytes' hb'le hb'ne (i + 1) (pre ++ c) (suffix.drop c.length)
          s1 k hold1 hpre1
        rw [this, hs1]
        have hval : (pre ++ c) ++ (bytes' ++ (suffix.drop c.length).drop bytes'.length)
            = pre ++ ((a :: l) ++ suffix.drop (a :: l).length) := by
          rw [List.drop_drop]
          have hsplit : c ++ bytes' = a :: l := by
            rw [hc, hb']
            exact List.take_append_drop MAX_CHUNK (a :: l)
          have harith : c.length + bytes'.length = (a :: l).length := by
            rw [hclen, hb'len]
            omega
          rw [hclen] at harith ⊢
          calc (pre ++ c) ++ (bytes' ++ suffix.drop (MAX_CHUNK + bytes'.length))
              = pre ++ ((c ++ bytes') ++ suffix.drop (MAX_CHUNK + bytes'.length)) := by
                simp [List.append_assoc]
            _ = pre ++ ((a :: l) ++ suffix.drop (a :: l).length) := by
                rw [hsplit, harith]
        rw [upd_upd, hval]
        congr 2
        simp [List.append_assoc]

theorem store_write_good {α : Type} (c : Codec α) (k : SKey) (v : α)
    (s : GoodState) (hne : c.enc v ≠ []) :
    store_write good c k v s =
      .ok ⟨upd s.store k
             (c.enc v ++ ((s.store k).getD []).drop (c.enc v).length),
           s.writes ++ (chunksOf MAX_CHUNK (c.enc v)).map (fun ch => (k, ch))⟩ := by
  have h := writeChunks_good (c.enc v).length (c.enc v) le_rfl hne 0 []
    ((s.store k).getD []) s k (by simp) (by simp)
  simp only [List.nil_append] at h
  simp only [store_write, h]

theorem store_write_good_empty {α : Type} (c : Codec α) (k : SKey) (v : α)
    (s : GoodState) (he : c.enc v = []) :
    store_write good c k v s = .ok s := by
  simp only [store_write, he, chunksOf_nil, writeChunks]

theorem store_write_good_ok {α : Type} (c : Codec α) (k : SKey) (v : α)
    (s : GoodState) :
    ∃ s', store_write good c k v s = .ok s' ∧
      s'.writes = s.writes ++ (chunksOf MAX_CHUNK (c.enc v)).map (fun ch => (k, ch)) := by
  by_cases he : c.enc v = []
  · refine ⟨s, store_write_good_empty c k v s he, ?_⟩
    simp [he, chunksOf_nil]
  · exact ⟨_, store_write_good c k v s he, rfl⟩

theorem readChunks_good (k : SKey) (bs : List UInt8) (s : GoodState)
    (hstore : s.store k = some bs) :
    ∀ (count i : Nat), bs.length ≤ count * MAX_CHUNK + i * MAX_CHUNK →
      readChunks good s k bs.length count i = .ok (bs.drop (i * MAX_CHUNK)) := by
  intro count
  induction count with
  | zero =>
    intro i hle
    simp only [readChunks]
    rw [List.drop_eq_nil_of_le (by omega)]
  | succ count ih =>
    intro i hle
    have hM : MAX_CHUNK = 2048 := rfl
    have hrest : readChunks good s k bs.length count (i + 1) =
        .ok (bs.drop ((i + 1) * MAX_CHUNK)) := by
      apply ih
      rw [hM] at hle ⊢
      omega
    have hslice : good.readSlice s k (i * MAX_CHUNK)
        (min bs.length ((i + 1) * MAX_CHUNK) - i * MAX_CHUNK) =
        .ok ((bs.drop (i * MAX_CHUNK)).take
          (min bs.length ((i + 1) * MAX_CHUNK) - i * MAX_CHUNK)) := by
      simp [good, hstore]
    simp only [readChunks, hslice, hrest]
    congr 1
    rw [hM] at *
    have harith : min bs.length ((i + 1) * 2048) - i * 2048 =
        min (bs.length - i * 2048) 2048 := by
      omega
    rw [harith]
    by_cases hend : bs.length ≤ (i + 1) * 2048
    · have h1 : min (bs.length - i * 2048) 2048 =
          bs.length - i * 2048 := by omega
      have h2 : (bs.drop ((i + 1) * 2048)) = [] :=
        List.drop_eq_nil_of_le (by omega)
      rw [h1, h2, List.append_nil]
      apply List.take_of_length_le
      simp only [List.length_drop]
      exact le_rfl
    · have h1 : min (bs.length - i * 2048) 2048 = 2048 := by
        omega
      have h2 : bs.drop ((i + 1) * 2048) =
          (bs.drop (i * 2048)).drop 2048 := by
        rw [List.drop_drop]
        rw [show i * 2048 + 2048 = (i + 1) * 2048 from by omega]
      rw [h1, h2, List.take_append_drop]

theorem store_read_good {α : Type} (c : Codec α) (k : SKey) (bs : List UInt8)
    (s : GoodState) (hstore : s.store k = some bs) :
    store_read good c s k =
      match c.dec bs with
      | some v => .ok (some v)
      | none => .error .decodeErr := by
  have hcount : bs.length ≤ ((bs.length + MAX_CHUNK - 1) / MAX_CHUNK) * MAX_CHUNK
      + 0 * MAX_CHUNK := by
    have hM : MAX_CHUNK = 2048 := rfl
    rw [hM]
    omega
  have hread := readChunks_good k bs s hstore
    ((bs.length + MAX_CHUNK - 1) / MAX_CHUNK) 0 hcount
  have hsize : good.valueSize s k = .ok bs.length := by
    simp [good, hstore]
  simp only [store_read, hsize, hread, Nat.zero_mul, List.drop_zero]

theorem store_read_good_none {α : Type} (c : Codec α) (k : SKey)
    (s : GoodState) (hstore : s.store k = none) :
    store_read good c s k = .ok none := by
  simp only [store_read, good, hstore]

/-!  Concrete fixtures for counterexamples and witnesses. -/

/-- A sample non-zero account record (balance 5, code hash 7). -/
def infoX : AccountInfo := ⟨5, 0, 7, none⟩

/-- A host state holding `infoX` under address 3 and nothing else. -/
def sPresent : GoodState :=
  ⟨fun k => if k = .info 3 then some (accCodec.enc infoX) else none, []⟩

/-- A host state holding `infoX` under address 3 and the value 9 in
storage slot 5 of address 3. -/
def sAcct2 : GoodState :=
  ⟨fun k =>
    if k = .info 3 then some (accCodec.enc infoX)
    else if k = .slotK 3 5 then some (natCodec.enc 9)
    else none, []⟩

/-- A touched, non-self-destructed account with a zero record. -/
def acctTouched : Account := ⟨AccountInfo.default, [], true, false⟩

/-- A touched account carrying fresh non-empty code `cbytes` whose hash is
still the `KECCAK_EMPTY` placeholder. -/
def mkCodeAcct (cbytes : List UInt8) : Account :=
  ⟨⟨0, 0, KECCAK_EMPTY, some cbytes⟩, [], true, false⟩

/-- Is this key in the code namespace? -/
def isCodeKey : SKey → Bool
  | .codeK _ => true
  | _ => false

/-- A concrete stand-in for `Bytecode::hash_slow` in closed theorems. -/
def hashToy : List UInt8 → Nat := fun bs => 1000 + bs.length

/-- C8, counterexample: the claim quantifies over every value whose
serialization is smaller than one chunk, which includes values of
zero-sized serialization (`bincode` encodes the Rust unit type to zero
bytes).  For such a value `bytes.chunks(MAX_CHUNK)` yields no chunks, so
`store_write` never creates the key, and `store_read` then returns
`Ok(None)` instead of the value: the write/read round trip fails. -/
theorem c8_empty_value_no_roundtrip :
    store_write good unitCodec (.info 0) () emptyGS = .ok emptyGS ∧
    store_read good unitCodec emptyGS (.info 0) = .ok none ∧
    (Except.ok none : Except KernelError (Option Unit)) ≠ .ok (some ()) := by
  refine ⟨rfl, rfl, ?_⟩
  intro h
  simp at h

/-- C8 (amended): for every key and every value whose serialization is
non-empty (in particular every serialized size in
`{MAX_CHUNK - 1, MAX_CHUNK, MAX_CHUNK + 1}`), and any prefix-decoding
codec (as `bincode` is), `store_write(k, v)` followed by `store_read(k)`
returns exactly `v`: the chunked write then chunked read is a round
trip. -/
theorem c8_chunked_roundtrip {α : Type} (c : Codec α) (k : SKey) (v : α)
    (s : GoodState)
    (hdec : ∀ (w : α) (rest : List UInt8), c.dec (c.enc w ++ rest) = some w)
    (hne : c.enc v ≠ []) :
    ∃ s', store_write good c k v s = .ok s' ∧
      store_read good c s' k = .ok (some v) := by
  refine ⟨_, store_write_good c k v s hne, ?_⟩
  rw [store_read_good c k
    (c.enc v ++ ((s.store k).getD []).drop (c.enc v).length) _
    (upd_self s.store k _), hdec]

/-- Witness for C8: a concrete one-byte value round-trips through a fresh
store. -/
theorem c8_chunked_roundtrip_witness :
    ∃ s', store_write good u8Codec (.info 0) (7 : UInt8) emptyGS = .ok s' ∧
      store_read good u8Codec s' (.info 0) = .ok (some 7) :=
  c8_chunked_roundtrip u8Codec (.info 0) 7 emptyGS (fun _ _ => rfl) (by decide)

/-- C6, counterexample: `Database::basic` on a never-touched address
persists the zero-valued record but returns `Ok(None)`, not the zero
value, so the claim's "returns the zero value" is false at address 3 on
the empty store. -/
theorem c6_basic_absent_returns_none :
    (basic good toyCodecs 3 emptyGS).toOption.map Prod.fst = some none ∧
    some (none : Option AccountInfo) ≠ some (some AccountInfo.default) := by
  refine ⟨by decide, by decide⟩

/-- C6 (amended): on a present key `basic` decodes and returns the stored
record without writing; on an absent key it persists the zero-valued
record (so a subsequent existence check on that address's key is true)
and returns `None`. -/
theorem c6_basic_spec (C : DBCodecs) (a : Nat) (s : GoodState) :
    (s.store (.info a) = none → C.cAcc.enc AccountInfo.default ≠ [] →
      ∃ s', basic good C a s = .ok (none, s') ∧
        s'.store (.info a) = some (C.cAcc.enc AccountInfo.default) ∧
        good.has s' (.info a) = .ok true) ∧
    (∀ bs v, s.store (.info a) = some bs → C.cAcc.dec bs = some v →
      basic good C a s = .ok (some v, s)) := by
  constructor
  · intro habsent hne
    have hread := store_read_good_none C.cAcc (.info a) s habsent
    have hwrite := store_write_good C.cAcc (.info a) AccountInfo.default s hne
    rw [habsent] at hwrite
    simp only [Option.getD_none, List.drop_nil, List.append_nil] at hwrite
    refine ⟨⟨upd s.store (.info a) (C.cAcc.enc AccountInfo.default),
      s.writes ++ (chunksOf MAX_CHUNK (C.cAcc.enc AccountInfo.default)).map
        (fun ch => (SKey.info a, ch))⟩, ?_, ?_, ?_⟩
    · simp only [basic, hread, insert_new_account, hwrite]
    · exact upd_self s.store (.info a) _
    · simp only [good, upd_self, Option.isSome_some]
  · intro bs v hpresent hdec
    have hread := store_read_good C.cAcc (.info a) bs s hpresent
    rw [hdec] at hread
    simp only [basic, hread]

/-- Witness for C6: the absent branch at address 9 of the empty store,
and the present branch at address 3 of a store holding `infoX`. -/
theorem c6_basic_spec_witness :
    (∃ s', basic good toyCodecs 9 emptyGS = .ok (none, s') ∧
        s'.store (.info 9) = some (toyCodecs.cAcc.enc AccountInfo.default) ∧
        good.has s' (.info 9) = .ok true) ∧
    basic good toyCodecs 3 sPresent = .ok (some infoX, sPresent) :=
  ⟨(c6_basic_spec toyCodecs 9 emptyGS).1 rfl (by decide),
   (c6_basic_spec toyCodecs 3 sPresent).2 (accCodec.enc infoX) infoX rfl (by decide)⟩

/-- C2: in `commit`, for a touched self-destructed account the code calls
`insert_new_account` (writing a zero record at `/i/<address>`) and then
`clear_storage`, which deletes the path built by `Info(address)` — the
account-info key — instead of the `/s/<address>` storage subtree.
Concretely: address 3 holds `infoX` and has storage slot 5 populated with
value 9; after committing its self-destruct, the storage slot is still
reachable, the account-info key is gone, and a fresh `read_account`
(`basic`) on address 3 returns `None` rather than the zero-valued record.
This contradicts the claim (zero slots reachable, record reset to the zero
value). -/
theorem c2_selfdestruct_leaves_storage :
    ((commit_safe good toyCodecs hashToy [(3, ⟨infoX, [], true, true⟩)] sAcct2).toOption.map
      (fun s' => (s'.store (.info 3), s'.store (.slotK 3 5),
        (basic good toyCodecs 3 s').toOption.map Prod.fst))) =
    some (none, some (natCodec.enc 9), some none) := by
  decide

/-- C3: `Database::storage` has the lazy-materialization condition
inverted.  At address 3, which exists with balance 5, reading the absent
slot 5 returns zero but OVERWRITES the existing record with the
zero-valued one (a destructive write the claim forbids); at address 4,
which has never been touched, reading an absent slot returns zero and
performs no write at all (no materialization, contradicting the claim). -/
theorem c3_storage_materialization_inverted :
    ((storageFn good toyCodecs 3 5 sPresent).toOption.map Prod.fst = some 0) ∧
    ((storageFn good toyCodecs 3 5 sPresent).toOption.map
        (fun p => p.2.store (.info 3))) =
      some (some (accCodec.enc AccountInfo.default)) ∧
    accCodec.enc AccountInfo.default ≠ accCodec.enc infoX ∧
    ((storageFn good toyCodecs 4 5 sPresent).toOption.map
        (fun p => p.2.store (.info 4))) = some none ∧
    ((storageFn good toyCodecs 4 5 sPresent).toOption.map
        (fun p => p.2.writes.length)) = some 0 := by
  decide

/-- C4: the `DatabaseCommit::commit` impl calls `.unwrap()` on
`commit_safe`, so a host I/O failure inside a store operation during
commit panics (modelled as `none`) and halts the kernel, instead of being
fatal only to the in-flight transaction.  Concretely: committing one
touched account on a host whose `store_write` fails with an I/O error. -/
theorem c4_commit_panics_on_store_error :
    commitUnwrap badR toyCodecs hashToy [(0, acctTouched)] () = none := by
  decide

/-- C7, counterexample: `insert_contract` writes the code under the code
namespace unconditionally, so committing byte-identical code `[9]` for the
two distinct accounts 1 and 2 performs TWO code-namespace writes, not one:
the claim's "committing byte-identical code for a second account causes no
second code-namespace write" is false. -/
theorem c7_code_written_twice :
    ((commit_safe good toyCodecs hashToy
        [(1, mkCodeAcct [9]), (2, mkCodeAcct [9])] emptyGS).toOption.map
      (fun s' => (s'.writes.filter (fun p => isCodeKey p.1)).length)) =
    some 2 := by
  decide

theorem commit_cons_code {C : DBCodecs} {κ : List UInt8 → Nat} (x : Nat)
    (cbytes : List UInt8) (rest : List (Nat × Account)) (s : GoodState)
    (hc : cbytes ≠ []) (hκ : κ cbytes ≠ 0) :
    commit_safe good C κ ((x, mkCodeAcct cbytes) :: rest) s =
      match store_write good C.cCode (.codeK (κ cbytes)) cbytes s with
      | .error e => .error e
      | .ok s1 =>
        match store_write good C.cAcc (.info x)
            (⟨0, 0, κ cbytes, none⟩ : AccountInfo) s1 with
        | .error e => .error e
        | .ok s2 => commit_safe good C κ rest s2 := by
  cases hsw1 : store_write good C.cCode (.codeK (κ cbytes)) cbytes s with
  | error e =>
    simp [commit_safe, mkCodeAcct, insert_contract, hsw1, hc, hκ]
  | ok s1 =>
    cases hsw2 : store_write good C.cAcc (.info x)
        (⟨0, 0, κ cbytes, none⟩ : AccountInfo) s1 with
    | error e =>
      simp [commit_safe, mkCodeAcct, insert_contract, writeSlots, hsw1, hsw2,
        hc, hκ]
    | ok s2 =>
      simp [commit_safe, mkCodeAcct, insert_contract, writeSlots, hsw1, hsw2,
        hc, hκ]

/-- C7 (amended): in `commit`, an account whose delta carries new
non-empty code has the code hashed when the recorded hash is still the
`KECCAK_EMPTY` placeholder, and the code is written under the single
code-namespace key of that hash; committing byte-identical code for a
second account performs a SECOND code-namespace write, but it targets the
same key and rewrites the same bytes, so the code namespace still holds
exactly one entry for that hash; and the code bytes are stripped from the
`AccountRecord` before the record itself is written (both persisted
records carry `code = None`). -/
theorem c7_code_dedup_amended (C : DBCodecs) (κ : List UInt8 → Nat)
    (a b : Nat) (cbytes : List UInt8) (hab : a ≠ b) (hc : cbytes ≠ [])
    (hκ : κ cbytes ≠ 0) (hcc : C.cCode.enc cbytes ≠ [])
    (hca : C.cAcc.enc ⟨0, 0, κ cbytes, none⟩ ≠ []) :
    ∃ s', commit_safe good C κ
        [(a, mkCodeAcct cbytes), (b, mkCodeAcct cbytes)] emptyGS = .ok s' ∧
      (∀ p ∈ s'.writes, isCodeKey p.1 = true → p.1 = SKey.codeK (κ cbytes)) ∧
      s'.store (.codeK (κ cbytes)) = some (C.cCode.enc cbytes) ∧
      s'.store (.info a) = some (C.cAcc.enc ⟨0, 0, κ cbytes, none⟩) ∧
      s'.store (.info b) = some (C.cAcc.enc ⟨0, 0, κ cbytes, none⟩) := by
  have hiak : SKey.info a ≠ SKey.codeK (κ cbytes) := fun hq => SKey.noConfusion hq
  have hkia : SKey.codeK (κ cbytes) ≠ SKey.info a := fun hq => SKey.noConfusion hq
  have hibk : SKey.info b ≠ SKey.codeK (κ cbytes) := fun hq => SKey.noConfusion hq
  have hkib : SKey.codeK (κ cbytes) ≠ SKey.info b := fun hq => SKey.noConfusion hq
  have hiba : SKey.info b ≠ SKey.info a := by
    intro hq
    injection hq with hq'
    exact hab hq'.symm
  have hiab : SKey.info a ≠ SKey.info b := by
    intro hq
    injection hq with hq'
    exact hab hq'
  have hw1 : store_write good C.cCode (SKey.codeK (κ cbytes)) cbytes emptyGS =
      .ok ⟨upd emptyGS.store (SKey.codeK (κ cbytes)) (C.cCode.enc cbytes),
           (chunksOf MAX_CHUNK (C.cCode.enc cbytes)).map
             (fun ch => (SKey.codeK (κ cbytes), ch))⟩ := by
    rw [store_write_good _ _ _ _ hcc]
    simp [emptyGS]
  have hw2 : store_write good C.cAcc (SKey.info a)
      (⟨0, 0, κ cbytes, none⟩ : AccountInfo)
      ⟨upd emptyGS.store (SKey.codeK (κ cbytes)) (C.cCode.enc cbytes),
       (chunksOf MAX_CHUNK (C.cCode.enc cbytes)).map
         (fun ch => (SKey.codeK (κ cbytes), ch))⟩ =
      .ok ⟨upd (upd emptyGS.store (SKey.codeK (κ cbytes)) (C.cCode.enc cbytes))
             (SKey.info a) (C.cAcc.enc ⟨0, 0, κ cbytes, none⟩),
           (chunksOf MAX_CHUNK (C.cCode.enc cbytes)).map
             (fun ch => (SKey.codeK (κ cbytes), ch)) ++
           (chunksOf MAX_CHUNK (C.cAcc.enc ⟨0, 0, κ cbytes, none⟩)).map
             (fun ch => (SKey.info a, ch))⟩ := by
    rw [store_write_good _ _ _ _ hca]
    simp [upd_ne _ _ hiak, emptyGS]
  have hw3 : store_write good C.cCode (SKey.codeK (κ cbytes)) cbytes
      ⟨upd (upd emptyGS.store (SKey.codeK (κ cbytes)) (C.cCode.enc cbytes))
         (SKey.info a) (C.cAcc.enc ⟨0, 0, κ cbytes, none⟩),
       (chunksOf MAX_CHUNK (C.cCode.enc cbytes)).map
         (fun ch => (SKey.codeK (κ cbytes), ch)) ++
       (chunksOf MAX_CHUNK (C.cAcc.enc ⟨0, 0, κ cbytes, none⟩)).map
         (fun ch => (SKey.info a, ch))⟩ =
      .ok ⟨upd (upd (upd emptyGS.store (SKey.codeK (κ cbytes)) (C.cCode.enc cbytes))
               (SKey.info a) (C.cAcc.enc ⟨0, 0, κ cbytes, none⟩))
             (SKey.codeK (κ cbytes)) (C.cCode.enc cbytes),
           (chunksOf MAX_CHUNK (C.cCode.enc cbytes)).map
             (fun ch => (SKey.codeK (κ cbytes), ch)) ++
           (chunksOf MAX_CHUNK (C.cAcc.enc ⟨0, 0, κ cbytes, none⟩)).map
             (fun ch => (SKey.info a, ch)) ++
           (chunksOf MAX_CHUNK (C.cCode.enc cbytes)).map
             (fun ch => (SKey.codeK (κ cbytes), ch))⟩ := by
    rw [store_write_good _ _ _ _ hcc]
    simp [upd_ne _ _ hkia, upd_self, List.drop_length]
  have hw4 : store_write good C.cAcc (SKey.info b)
      (⟨0, 0, κ cbytes, none⟩ : AccountInfo)
      ⟨upd (upd (upd emptyGS.store (SKey.codeK (κ cbytes)) (C.cCode.enc cbytes))
           (SKey.info a) (C.cAcc.enc ⟨0, 0, κ cbytes, none⟩))
         (SKey.codeK (κ cbytes)) (C.cCode.enc cbytes),
       (chunksOf MAX_CHUNK (C.cCode.enc cbytes)).map
         (fun ch => (SKey.codeK (κ cbytes), ch)) ++
       (chunksOf MAX_CHUNK (C.cAcc.enc ⟨0, 0, κ cbytes, none⟩)).map
         (fun ch => (SKey.info a, ch)) ++
       (chunksOf MAX_CHUNK (C.cCode.enc cbytes)).map
         (fun ch => (SKey.codeK (κ cbytes), ch))⟩ =
      .ok ⟨upd (upd (upd (upd emptyGS.store (SKey.codeK (κ cbytes))
                 (C.cCode.enc cbytes))
               (SKey.info a) (C.cAcc.enc ⟨0, 0, κ cbytes, none⟩))
             (SKey.codeK (κ cbytes)) (C.cCode.enc cbytes))
             (SKey.info b) (C.cAcc.enc ⟨0, 0, κ cbytes, none⟩),
           (chunksOf MAX_CHUNK (C.cCode.enc cbytes)).map
             (fun ch => (SKey.codeK (κ cbytes), ch)) ++
           (chunksOf MAX_CHUNK (C.cAcc.enc ⟨0, 0, κ cbytes, none⟩)).map
             (fun ch => (SKey.info a, ch)) ++
           (chunksOf MAX_CHUNK (C.cCode.enc cbytes)).map
             (fun ch => (SKey.codeK (κ cbytes), ch)) ++
           (chunksOf MAX_CHUNK (C.cAcc.enc ⟨0, 0, κ cbytes, none⟩)).map
             (fun ch => (SKey.info b, ch))⟩ := by
    rw [store_write_good _ _ _ _ hca]
    simp [upd_ne _ _ hibk, upd_ne _ _ hiba, emptyGS]
  refine ⟨⟨upd (upd (upd (upd emptyGS.store (SKey.codeK (κ cbytes))
          (C.cCode.enc cbytes))
        (SKey.info a) (C.cAcc.enc ⟨0, 0, κ cbytes, none⟩))
      (SKey.codeK (κ cbytes)) (C.cCode.enc cbytes))
      (SKey.info b) (C.cAcc.enc ⟨0, 0, κ cbytes, none⟩),
    (chunksOf MAX_CHUNK (C.cCode.enc cbytes)).map
      (fun ch => (SKey.codeK (κ cbytes), ch)) ++
    (chunksOf MAX_CHUNK (C.cAcc.enc ⟨0, 0, κ cbytes, none⟩)).map
      (fun ch => (SKey.info a, ch)) ++
    (chunksOf MAX_CHUNK (C.cCode.enc cbytes)).map
      (fun ch => (SKey.codeK (κ cbytes), ch)) ++
    (chunksOf MAX_CHUNK (C.cAcc.enc ⟨0, 0, κ cbytes, none⟩)).map
      (fun ch => (SKey.info b, ch))⟩, ?_, ?_, ?_, ?_, ?_⟩
  rotate_left
  · intro p hp hcode
    simp only [List.mem_append, List.mem_map] at hp
    rcases hp with ((⟨ch, _hch, hpq⟩ | ⟨ch, _hch, hpq⟩) | ⟨ch, _hch, hpq⟩) |
      ⟨ch, _hch, hpq⟩ <;> subst hpq <;>
      first
        | rfl
        | simp [isCodeKey] at hcode
  · simp only [upd_ne _ _ hkib, upd_self]
  · simp only [upd_ne _ _ hiab, upd_ne _ _ hiak, upd_self]
  · simp only [upd_self]
  · rw [commit_cons_code a cbytes [(b, mkCodeAcct cbytes)] emptyGS hc hκ]
    simp only [hw1, hw2]
    rw [commit_cons_code b cbytes [] _ hc hκ]
    simp only [hw3, hw4]
    rfl

/-- Witness for C7: addresses 1 and 2 deploying the byte-identical code
`[9]` through the concrete test codecs. -/
theorem c7_code_dedup_amended_witness :
    ∃ s', commit_safe good toyCodecs hashToy
        [(1, mkCodeAcct [9]), (2, mkCodeAcct [9])] emptyGS = .ok s' ∧
      (∀ p ∈ s'.writes, isCodeKey p.1 = true → p.1 = SKey.codeK (hashToy [9])) ∧
      s'.store (.codeK (hashToy [9])) = some (toyCodecs.cCode.enc [9]) ∧
      s'.store (.info 1) = some (toyCodecs.cAcc.enc ⟨0, 0, hashToy [9], none⟩) ∧
      s'.store (.info 2) = some (toyCodecs.cAcc.enc ⟨0, 0, hashToy [9], none⟩) :=
  c7_code_dedup_amended toyCodecs hashToy 1 2 [9] (by decide) (by decide)
    (by decide) (by decide) (by decide)

/-!  Helper lemmas for the write-log invariant of `commit_safe` (C10). -/

theorem good_delete_writes {s s2 : GoodState} {k : SKey}
    (h : good.delete s k = .ok s2) : s2.writes = s.writes := by
  simp only [good] at h
  cases hsk : s.store k with
  | none =>
    rw [hsk] at h
    cases h
  | some v =>
    rw [hsk] at h
    injection h with h'
    rw [← h']

theorem store_write_writes_mem {α : Type} (c : Codec α) {k : SKey} {v : α}
    {s s' : GoodState} (h : store_write good c k v s = .ok s') :
    s'.writes = s.writes ++ (chunksOf MAX_CHUNK (c.enc v)).map
      (fun ch => (k, ch)) := by
  obtain ⟨s'', hs'', hw⟩ := store_write_good_ok c k v s
  rw [hs''] at h
  injection h with h'
  rw [← h']
  exact hw

theorem writeSlots_info_writes (C : DBCodecs) (addr : Nat) :
    ∀ (slots : List (Nat × Nat)) (s s' : GoodState),
      writeSlots good C addr slots s = .ok s' →
      ∀ (x : Nat) (bs : List UInt8),
        (SKey.info x, bs) ∈ s'.writes → (SKey.info x, bs) ∈ s.writes := by
  intro slots
  induction slots with
  | nil =>
    intro s s' h x bs hm
    simp only [writeSlots] at h
    injection h with h'
    subst h'
    exact hm
  | cons sl rest ih =>
    obtain ⟨key, value⟩ := sl
    intro s s' h x bs hm
    simp only [writeSlots] at h
    cases hsw : store_write good C.cVal (.slotK addr key) value s with
    | error e =>
      rw [hsw] at h
      cases h
    | ok s1 =>
      rw [hsw] at h
      have hmem := ih s1 s' h x bs hm
      rw [store_write_writes_mem C.cVal hsw] at hmem
      rcases List.mem_append.mp hmem with h1 | h2
      · exact h1
      · exfalso
        simp only [List.mem_map] at h2
        obtain ⟨ch, _, hpq⟩ := h2
        injection hpq with h3 _
        exact SKey.noConfusion h3

theorem insert_contract_good (C : DBCodecs) (κ : List UInt8 → Nat)
    (a : AccountInfo) (s : GoodState) (a' : AccountInfo) (s' : GoodState)
    (h : insert_contract good C κ a s = .ok (a', s')) :
    a'.code = a.code ∧ a'.codeHash ≠ 0 ∧
    (∀ (x : Nat) (bs : List UInt8),
      (SKey.info x, bs) ∈ s'.writes → (SKey.info x, bs) ∈ s.writes) := by
  have hKE : KECCAK_EMPTY ≠ 0 := by decide
  cases hcode : a.code with
  | none =>
    simp only [insert_contract, hcode] at h
    split_ifs at h with hz
    · injection h with h'
      injection h' with ha hs
      subst ha
      subst hs
      exact ⟨rfl, hKE, fun x bs hm => hm⟩
    · injection h with h'
      injection h' with ha hs
      subst ha
      subst hs
      exact ⟨hcode, hz, fun x bs hm => hm⟩
  | some code =>
    simp only [insert_contract, hcode] at h
    by_cases hce : code ≠ []
    · rw [if_pos hce] at h
      by_cases hke : a.codeHash = KECCAK_EMPTY
      · rw [if_pos hke] at h
        cases hsw : store_write good C.cCode (SKey.codeK (κ code)) code s with
        | error e =>
          rw [hsw] at h
          cases h
        | ok s1 =>
          rw [hsw] at h
          have hwmem : ∀ (x : Nat) (bs : List UInt8),
              (SKey.info x, bs) ∈ s1.writes → (SKey.info x, bs) ∈ s.writes := by
            intro x bs hm
            rw [store_write_writes_mem C.cCode hsw] at hm
            rcases List.mem_append.mp hm with h1 | h2
            · exact h1
            · exfalso
              simp only [List.mem_map] at h2
              obtain ⟨ch, _, hpq⟩ := h2
              injection hpq with h3 _
              exact SKey.noConfusion h3
          simp only at h
          split_ifs at h with hz
          · injection h with h'
            injection h' with ha hs
            subst ha
            subst hs
            exact ⟨rfl, hKE, hwmem⟩
          · injection h with h'
            injection h' with ha hs
            subst ha
            subst hs
            exact ⟨rfl, hz, hwmem⟩
      · rw [if_neg hke] at h
        cases hsw : store_write good C.cCode (SKey.codeK a.codeHash) code s with
        | error e =>
          rw [hsw] at h
          cases h
        | ok s1 =>
          rw [hsw] at h
          have hwmem : ∀ (x : Nat) (bs : List UInt8),
              (SKey.info x, bs) ∈ s1.writes → (SKey.info x, bs) ∈ s.writes := by
            intro x bs hm
            rw [store_write_writes_mem C.cCode hsw] at hm
            rcases List.mem_append.mp hm with h1 | h2
            · exact h1
            · exfalso
              simp only [List.mem_map] at h2
              obtain ⟨ch, _, hpq⟩ := h2
              injection hpq with h3 _
              exact SKey.noConfusion h3
          simp only at h
          split_ifs at h with hz
          · injection h with h'
            injection h' with ha hs
            subst ha
            subst hs
            exact ⟨rfl, hKE, hwmem⟩
          · injection h with h'
            injection h' with ha hs
            subst ha
            subst hs
            exact ⟨rfl, hz, hwmem⟩
    · rw [if_neg hce] at h
      simp only at h
      split_ifs at h with hz
      · injection h with h'
        injection h' with ha hs
        subst ha
        subst hs
        exact ⟨hcode, hKE, fun x bs hm => hm⟩
      · injection h with h'
        injection h' with ha hs
        subst ha
        subst hs
        exact ⟨hcode, hz, fun x bs hm => hm⟩

theorem commit_safe_info_writes (C : DBCodecs) (κ : List UInt8 → Nat) :
    ∀ (changes : List (Nat × Account)) (s s' : GoodState),
      commit_safe good C κ changes s = .ok s' →
      ∀ (x : Nat) (bs : List UInt8), (SKey.info x, bs) ∈ s'.writes →
        (SKey.info x, bs) ∈ s.writes ∨
        ∃ rec : AccountInfo, rec.code = none ∧ rec.codeHash ≠ 0 ∧
          bs ∈ chunksOf MAX_CHUNK (C.cAcc.enc rec) := by
  intro changes
  induction changes with
  | nil =>
    intro s s' h x bs hm
    simp only [commit_safe] at h
    injection h with h'
    subst h'
    exact .inl hm
  | cons entry rest ih =>
    obtain ⟨addr, acct⟩ := entry
    intro s s' h x bs hm
    cases ht : acct.touched with
    | false =>
      simp only [commit_safe, ht, Bool.not_false, if_true] at h
      exact ih s s' h x bs hm
    | true =>
      cases hsd : acct.selfdestructed with
      | true =>
        simp only [commit_safe, ht, hsd, Bool.not_true, Bool.false_eq_true,
          if_false, if_true] at h
        cases hin : insert_new_account good C addr s with
        | error e =>
          rw [hin] at h
          cases h
        | ok s1 =>
          rw [hin] at h
          simp only at h
          cases hcl : clear_storage good addr s1 with
          | error e =>
            rw [hcl] at h
            cases h
          | ok s2 =>
            rw [hcl] at h
            have hw2 : s2.writes = s1.writes := by
              simp only [clear_storage] at hcl
              cases hd : good.delete s1 (.info addr) with
              | error e =>
                rw [hd] at hcl
                cases hcl
              | ok s3 =>
                rw [hd] at hcl
                injection hcl with h'
                rw [← h']
                exact good_delete_writes hd
            rcases ih s2 s' h x bs hm with h1 | h2
            · rw [hw2] at h1
              simp only [insert_new_account] at hin
              rw [store_write_writes_mem C.cAcc hin] at h1
              rcases List.mem_append.mp h1 with h3 | h4
              · exact .inl h3
              · refine .inr ⟨AccountInfo.default, rfl, by decide, ?_⟩
                simp only [List.mem_map] at h4
                obtain ⟨ch, hch, hpq⟩ := h4
                injection hpq with _ h5
                rw [← h5]
                exact hch
            · exact .inr h2
      | false =>
        simp only [commit_safe, ht, hsd, Bool.not_true, Bool.false_eq_true,
          if_false] at h
        cases hic : insert_contract good C κ acct.info s with
        | error e =>
          rw [hic] at h
          cases h
        | ok pair =>
          obtain ⟨info', s1⟩ := pair
          rw [hic] at h
          simp only at h
          obtain ⟨_, hch0, hwmem1⟩ :=
            insert_contract_good C κ acct.info s info' s1 hic
          cases hswa : store_write good C.cAcc (.info addr)
              { info' with code := none } s1 with
          | error e =>
            rw [hswa] at h
            cases h
          | ok s2 =>
            rw [hswa] at h
            simp only at h
            cases hws : writeSlots good C addr acct.storage s2 with
            | error e =>
              rw [hws] at h
              cases h
            | ok s3 =>
              rw [hws] at h
              rcases ih s3 s' h x bs hm with h1 | h2
              · have h1' := writeSlots_info_writes C addr acct.storage s2 s3
                  hws x bs h1
                rw [store_write_writes_mem C.cAcc hswa] at h1'
                rcases List.mem_append.mp h1' with h3 | h4
                · exact .inl (hwmem1 x bs h3)
                · refine .inr ⟨{ info' with code := none }, rfl, hch0, ?_⟩
                  simp only [List.mem_map] at h4
                  obtain ⟨ch, hch, hpq⟩ := h4
                  injection hpq with _ h5
                  rw [← h5]
                  exact hch
              · exact .inr h2

/-- C10: every byte chunk that `commit` writes to the account-info
namespace is a chunk of the encoding of a record whose `code` field is
`None` (the code bytes are stripped before the record is written) and
whose code hash is not the all-zero hash (a zero code hash is replaced by
the `KECCAK_EMPTY` sentinel inside `insert_contract` before the write).
This covers every record persisted by `commit_safe`, in particular the
records of touched non-self-destructed accounts. -/
theorem c10_persisted_records_invariant (C : DBCodecs)
    (κ : List UInt8 → Nat) (changes : List (Nat × Account))
    (s s' : GoodState) (hstart : s.writes = [])
    (h : commit_safe good C κ changes s = .ok s') :
    ∀ (x : Nat) (bs : List UInt8), (SKey.info x, bs) ∈ s'.writes →
      ∃ rec : AccountInfo, rec.code = none ∧ rec.codeHash ≠ 0 ∧
        bs ∈ chunksOf MAX_CHUNK (C.cAcc.enc rec) := by
  intro x bs hm
  rcases commit_safe_info_writes C κ changes s s' h x bs hm with h1 | h2
  · rw [hstart] at h1
    cases h1
  · exact h2

/-- Witness for C10: the record written by a concrete self-destruct
commit at address 3 decodes from a code-stripped, non-zero-hash record. -/
theorem c10_persisted_records_invariant_witness :
    ∃ rec : AccountInfo, rec.code = none ∧ rec.codeHash ≠ 0 ∧
      ([0, 0, 112, 0] : List UInt8) ∈
        chunksOf MAX_CHUNK (toyCodecs.cAcc.enc rec) := by
  have hrun : ∃ s', commit_safe good toyCodecs hashToy
      [(3, ⟨infoX, [], true, true⟩)] sAcct2 = .ok s' ∧
      (SKey.info 3, ([0, 0, 112, 0] : List UInt8)) ∈ s'.writes :=
    ⟨_, rfl, by decide⟩
  obtain ⟨s', hok, hmem⟩ := hrun
  exact c10_persisted_records_invariant toyCodecs hashToy _ sAcct2 s' rfl hok
    3 _ hmem

/-- C5: `get_inbox_message` is total and recovers from every failure with
a log record: a host read failure, a malformed envelope, a malformed
external frame, a payload that fails to decode as a `SignedOperation`, and
a failed signature verification each yield a `Log(Error)` result; a
foreign-targeted external message yields an informational log; a
successful verification yields the transaction; and the result is always
one of `InboxEmpty` / `Log` / `TxEnv` — never a propagated error. -/
theorem c5_parser_total {ρ so τ : Type} (own : Nat)
    (readInput : Except String (Option ρ))
    (parseInbox : ρ → Except String InboxMsg)
    (parseFrame : List UInt8 → Except String Frame)
    (decodeSigned : List UInt8 → Except String so)
    (verifyOp : so → Option τ) :
    (∀ e, readInput = .error e →
      get_inbox_message own readInput parseInbox parseFrame decodeSigned
        verifyOp = .log (.error e)) ∧
    (readInput = .ok none →
      get_inbox_message own readInput parseInbox parseFrame decodeSigned
        verifyOp = .inboxEmpty) ∧
    (∀ r e, readInput = .ok (some r) → parseInbox r = .error e →
      get_inbox_message own readInput parseInbox parseFrame decodeSigned
        verifyOp = .log (.error e)) ∧
    (∀ r bytes e, readInput = .ok (some r) →
      parseInbox r = .ok (.external bytes) → parseFrame bytes = .error e →
      get_inbox_message own readInput parseInbox parseFrame decodeSigned
        verifyOp = .log (.error e)) ∧
    (∀ r bytes fr, readInput = .ok (some r) →
      parseInbox r = .ok (.external bytes) → parseFrame bytes = .ok fr →
      own ≠ fr.targetAddr →
      ∃ msg, get_inbox_message own readInput parseInbox parseFrame
        decodeSigned verifyOp = .log (.info msg)) ∧
    (∀ r bytes fr e, readInput = .ok (some r) →
      parseInbox r = .ok (.external bytes) → parseFrame bytes = .ok fr →
      own = fr.targetAddr → decodeSigned fr.contents = .error e →
      get_inbox_message own readInput parseInbox parseFrame decodeSigned
        verifyOp = .log (.error e)) ∧
    (∀ r bytes fr sop, readInput = .ok (some r) →
      parseInbox r = .ok (.external bytes) → parseFrame bytes = .ok fr →
      own = fr.targetAddr → decodeSigned fr.contents = .ok sop →
      verifyOp sop = none →
      get_inbox_message own readInput parseInbox parseFrame decodeSigned
        verifyOp = .log (.error "verification failed")) ∧
    (∀ r bytes fr sop tx, readInput = .ok (some r) →
      parseInbox r = .ok (.external bytes) → parseFrame bytes = .ok fr →
      own = fr.targetAddr → decodeSigned fr.contents = .ok sop →
      verifyOp sop = some tx →
      get_inbox_message own readInput parseInbox parseFrame decodeSigned
        verifyOp = .txEnv tx) ∧
    (∀ result, result = get_inbox_message own readInput parseInbox
        parseFrame decodeSigned verifyOp →
      result = .inboxEmpty ∨ (∃ l, result = .log l) ∨
        ∃ tx, result = .txEnv tx) := by
  refine ⟨?_, ?_, ?_, ?_, ?_, ?_, ?_, ?_, ?_⟩
  · intro e h
    simp only [get_inbox_message, to_inbox_result, h]
  · intro h
    simp only [get_inbox_message, to_inbox_result, h]
  · intro r e h1 h2
    simp only [get_inbox_message, to_inbox_result, h1, h2]
  · intro r bytes e h1 h2 h3
    simp only [get_inbox_message, to_inbox_result, h1, h2, h3]
  · intro r bytes fr h1 h2 h3 hne
    refine ⟨"Skipping message: External message targets another rollup", ?_⟩
    simp only [get_inbox_message, to_inbox_result, h1, h2, h3, if_pos hne]
  · intro r bytes fr e h1 h2 h3 h4 h5
    simp only [get_inbox_message, to_inbox_result, h1, h2, h3,
      if_neg (not_not_intro h4), h5]
  · intro r bytes fr sop h1 h2 h3 h4 h5 h6
    simp only [get_inbox_message, to_inbox_result, h1, h2, h3,
      if_neg (not_not_intro h4), h5, h6]
  · intro r bytes fr sop tx h1 h2 h3 h4 h5 h6
    simp only [get_inbox_message, to_inbox_result, h1, h2, h3,
      if_neg (not_not_intro h4), h5, h6]
  · intro result h
    subst h
    cases hgim : get_inbox_message own readInput parseInbox parseFrame
        decodeSigned verifyOp with
    | inboxEmpty => exact .inl rfl
    | log l => exact .inr (.inl ⟨l, rfl⟩)
    | txEnv tx => exact .inr (.inr ⟨tx, rfl⟩)

/-- Witness for C5: each failure path of the parser, exercised at concrete
inputs. -/
theorem c5_parser_total_witness :
    @get_inbox_message Unit Unit Unit 0 (.error "io")
        (fun _ => .error "a") (fun _ => .error "b") (fun _ => .error "c")
        (fun _ => none) = .log (.error "io") ∧
    @get_inbox_message Unit Unit Unit 0 (.ok none)
        (fun _ => .error "a") (fun _ => .error "b") (fun _ => .error "c")
        (fun _ => none) = .inboxEmpty ∧
    @get_inbox_message Unit Unit Unit 0 (.ok (some ()))
        (fun _ => .error "env") (fun _ => .error "b") (fun _ => .error "c")
        (fun _ => none) = .log (.error "env") ∧
    @get_inbox_message Unit Unit Unit 0 (.ok (some ()))
        (fun _ => .ok (.external [])) (fun _ => .error "frame")
        (fun _ => .error "c") (fun _ => none) = .log (.error "frame") ∧
    (∃ msg, @get_inbox_message Unit Unit Unit 0
        (.ok (some ())) (fun _ => .ok (.external []))
        (fun _ => .ok ⟨1, []⟩) (fun _ => .error "c") (fun _ => none) =
        .log (.info msg)) ∧
    @get_inbox_message Unit Unit Unit 1 (.ok (some ()))
        (fun _ => .ok (.external [])) (fun _ => .ok ⟨1, []⟩)
        (fun _ => .error "dec") (fun _ => none) = .log (.error "dec") ∧
    @get_inbox_message Unit Unit Unit 1 (.ok (some ()))
        (fun _ => .ok (.external [])) (fun _ => .ok ⟨1, []⟩)
        (fun _ => .ok ()) (fun _ => none) =
        .log (.error "verification failed") ∧
    @get_inbox_message Unit Unit Unit 1 (.ok (some ()))
        (fun _ => .ok (.external [])) (fun _ => .ok ⟨1, []⟩)
        (fun _ => .ok ()) (fun _ => some ()) = .txEnv () :=
  ⟨(c5_parser_total 0 (.error "io") _ _ _ _).1 "io" rfl,
   (c5_parser_total 0 (.ok none) _ _ _ _).2.1 rfl,
   (c5_parser_total 0 (.ok (some ())) _ _ _ _).2.2.1 () "env" rfl rfl,
   (c5_parser_total 0 (.ok (some ())) _ _ _ _).2.2.2.1 () [] "frame" rfl rfl
     rfl,
   (c5_parser_total 0 (.ok (some ())) _ _ _ _).2.2.2.2.1 () [] ⟨1, []⟩ rfl
     rfl rfl (by decide),
   (c5_parser_total 1 (.ok (some ())) _ _ _ _).2.2.2.2.2.1 () [] ⟨1, []⟩
     "dec" rfl rfl rfl rfl rfl,
   (c5_parser_total 1 (.ok (some ())) _ _ _ _).2.2.2.2.2.2.1 () [] ⟨1, []⟩
     () rfl rfl rfl rfl rfl rfl,
   (c5_parser_total 1 (.ok (some ())) _ _ _ _).2.2.2.2.2.2.2.1 () [] ⟨1, []⟩
     () () rfl rfl rfl rfl rfl rfl⟩

/-- C9: building a `SignedOperation` from an operation, the matching
public key, and a signature produced by signing the operation's canonical
hash with the secret key (as the bench generator does), and then calling
`verify`, returns the operation; any other signature fails verification,
and so does any flip of the encoded operation (which, the canonical
encoding being injective, decodes to a different operation).  The external
signature scheme and hash are idealized by the stated hypotheses:
signatures verify, are unique per (key, message), and bind their message;
the canonical hash is collision-free on operations. -/
theorem c9_verify_roundtrip {Pk Sk Sig τ : Type} (S : SigScheme Pk Sk Sig)
    (enc : τ → List UInt8) (digest : List UInt8 → List UInt8)
    (sk : Sk) (op : Operation τ)
    (hcorrect : ∀ (sk' : Sk) (m : List UInt8),
      S.check (S.sign sk' m) (S.pkOf sk') m = true)
    (hunique : ∀ (sk' : Sk) (m : List UInt8) (sig : Sig),
      S.check sig (S.pkOf sk') m = true → sig = S.sign sk' m)
    (hbind : ∀ (sk' : Sk) (m m' : List UInt8),
      S.check (S.sign sk' m) (S.pkOf sk') m' = true → m = m')
    (hinj : ∀ op1 op2 : Operation τ,
      digest (enc op1.tx) = digest (enc op2.tx) → op1.tx = op2.tx) :
    (mkSignedOperation S enc digest sk op).verify S enc digest = some op ∧
    (∀ sig' : Sig, sig' ≠ S.sign sk (op.opHash enc digest) →
      (SignedOperation.mk (S.pkOf sk) sig' op).verify S enc digest
        = none) ∧
    (∀ op' : Operation τ, op'.tx ≠ op.tx →
      (SignedOperation.mk (S.pkOf sk) (S.sign sk (op.opHash enc digest))
        op').verify S enc digest = none) := by
  refine ⟨?_, ?_, ?_⟩
  · simp only [mkSignedOperation, SignedOperation.verify, hcorrect, if_true]
  · intro sig' hne
    cases hchk : S.check sig' (S.pkOf sk) (op.opHash enc digest) with
    | true => exact absurd (hunique sk _ sig' hchk) hne
    | false => simp [SignedOperation.verify, hchk]
  · intro op' hne
    cases hchk : S.check (S.sign sk (op.opHash enc digest)) (S.pkOf sk)
        (op'.opHash enc digest) with
    | true =>
      have hh : op.opHash enc digest = op'.opHash enc digest :=
        hbind sk _ _ hchk
      exact absurd (hinj op op' hh).symm hne
    | false => simp [SignedOperation.verify, hchk]

/-- A toy signature scheme (signature = the pair of key and message) used
to witness the idealized-scheme hypotheses of the crypto claim. -/
def toyScheme : SigScheme Nat Nat (Nat × List UInt8) where
  sign sk m := (sk, m)
  check sig pk m := sig.1 == pk && sig.2 == m
  pkOf sk := sk

/-- An injective one-byte canonical encoding of a boolean transaction
body. -/
def encBool : Bool → List UInt8 := fun b => [if b then 1 else 0]

/-- Witness for C9: the toy scheme satisfies the idealized hypotheses, and
the round trip, a flipped signature, and a flipped operation behave as
stated on concrete data. -/
theorem c9_verify_roundtrip_witness :
    (mkSignedOperation toyScheme encBool id 5 ⟨true⟩).verify toyScheme
        encBool id = some ⟨true⟩ ∧
    (SignedOperation.mk (toyScheme.pkOf 5) (5, [0]) ⟨true⟩).verify toyScheme
        encBool id = none ∧
    (SignedOperation.mk (toyScheme.pkOf 5)
        (toyScheme.sign 5 ((⟨true⟩ : Operation Bool).opHash encBool id))
        ⟨false⟩).verify toyScheme encBool id = none := by
  have h := c9_verify_roundtrip toyScheme encBool id 5 ⟨true⟩
    (fun sk' m => by simp [toyScheme])
    (fun sk' m sig hs => by
      cases sig with
      | mk s1 s2 => simp_all [toyScheme])
    (fun sk' m m' hs => by simp_all [toyScheme])
    (fun op1 op2 hh => by
      cases h1 : op1.tx <;> cases h2 : op2.tx <;>
        simp_all [encBool])
  exact ⟨h.1, h.2.1 (5, [0]) (by decide), h.2.2 ⟨false⟩ (by decide)⟩

theorem entryLoop_log {τ ε : Type}
    (engine : ε → τ → ε × Except String ExecutionResult) (l : LogType)
    (rest : List (InboxResult τ)) (evm : ε) (dur : GoodState) :
    entryLoop engine (.log l :: rest) evm dur =
      (.readMsg (.log l) :: .emitLog l ::
        (entryLoop engine rest evm dur).1,
       (entryLoop engine rest evm dur).2.1,
       (entryLoop engine rest evm dur).2.2) := by
  rcases hX : entryLoop engine rest evm dur with ⟨tr', evm', dur'⟩
  simp [entryLoop, hX]

theorem entryLoop_tx {τ ε : Type}
    (engine : ε → τ → ε × Except String ExecutionResult) (tx : τ)
    (rest : List (InboxResult τ)) (evm : ε) (dur : GoodState) :
    entryLoop engine (.txEnv tx :: rest) evm dur =
      (.readMsg (.txEnv tx) :: .execCommit tx ::
        .emitLog (txLog (engine evm tx).2) ::
        (entryLoop engine rest (engine evm tx).1 dur).1,
       (entryLoop engine rest (engine evm tx).1 dur).2.1,
       (entryLoop engine rest (engine evm tx).1 dur).2.2) := by
  rcases hE : engine evm tx with ⟨evm', res⟩
  rcases hX : entryLoop engine rest evm' dur with ⟨tr', evm'', dur'⟩
  simp [entryLoop, hE, hX]

theorem entryLoop_starts_with_read {τ ε : Type}
    (engine : ε → τ → ε × Except String ExecutionResult)
    (msgs : List (InboxResult τ)) (evm : ε) (dur : GoodState) :
    ∃ m0 tr', (entryLoop engine msgs evm dur).1 = .readMsg m0 :: tr' := by
  cases msgs with
  | nil => exact ⟨.inboxEmpty, [], rfl⟩
  | cons m rest =>
    cases m with
    | inboxEmpty => exact ⟨.inboxEmpty, [], rfl⟩
    | log l =>
      rw [entryLoop_log]
      exact ⟨.log l, _, rfl⟩
    | txEnv tx =>
      rw [entryLoop_tx]
      exact ⟨.txEnv tx, _, rfl⟩

/-- C1 (amended): the kernel loop reads inbox messages in order, executes
each transaction and commits it to the EVM's own in-memory database
(`CacheDB<EmptyDB>`) strictly between the read of its message and the
read of the next message, and applies transactions in the exact order they
are read — but it NEVER commits to the Durable State Store: the durable
host store is unchanged by the whole loop and no store-commit event ever
appears in its trace. -/
theorem c1_loop_order_amended {τ ε : Type}
    (engine : ε → τ → ε × Except String ExecutionResult)
    (msgs : List (InboxResult τ)) (evm : ε) (dur : GoodState) :
    (entryLoop engine msgs evm dur).2.2 = dur ∧
    KEvent.storeCommit ∉ (entryLoop engine msgs evm dur).1 ∧
    readsOf (entryLoop engine msgs evm dur).1 = consumed msgs ∧
    commitsOf (entryLoop engine msgs evm dur).1 = txsOf (consumed msgs) ∧
    (∀ (n : Nat) (tx : τ),
      (entryLoop engine msgs evm dur).1[n + 1]? = some (.execCommit tx) →
      (entryLoop engine msgs evm dur).1[n]? = some (.readMsg (.txEnv tx))) := by
  induction msgs generalizing evm with
  | nil =>
    refine ⟨rfl, by simp [entryLoop], rfl, rfl, ?_⟩
    intro n tx h
    simp [entryLoop, List.getElem?_cons_succ] at h
  | cons m rest ih =>
    cases m with
    | inboxEmpty =>
      refine ⟨rfl, by simp [entryLoop], rfl, rfl, ?_⟩
      intro n tx h
      simp [entryLoop, List.getElem?_cons_succ] at h
    | log l =>
      obtain ⟨ih1, ih2, ih3, ih4, ih5⟩ := ih evm
      rw [entryLoop_log]
      refine ⟨ih1, ?_, ?_, ?_, ?_⟩
      · simp only [List.mem_cons, not_or]
        exact ⟨by simp, by simp, ih2⟩
      · show InboxResult.log l :: readsOf (entryLoop engine rest evm dur).1 =
          InboxResult.log l :: consumed rest
        exact congrArg _ ih3
      · show commitsOf (entryLoop engine rest evm dur).1 = txsOf (consumed rest)
        exact ih4
      · intro n tx h
        cases n with
        | zero => simp at h
        | succ n' =>
          cases n' with
          | zero =>
            obtain ⟨m0, tr', hhead⟩ :=
              entryLoop_starts_with_read engine rest evm dur
            rw [List.getElem?_cons_succ, List.getElem?_cons_succ, hhead] at h
            simp at h
          | succ n'' =>
            rw [List.getElem?_cons_succ, List.getElem?_cons_succ] at h
            rw [List.getElem?_cons_succ, List.getElem?_cons_succ]
            exact ih5 n'' tx h
    | txEnv tx0 =>
      obtain ⟨ih1, ih2, ih3, ih4, ih5⟩ := ih (engine evm tx0).1
      rw [entryLoop_tx]
      refine ⟨ih1, ?_, ?_, ?_, ?_⟩
      · simp only [List.mem_cons, not_or]
        exact ⟨by simp, by simp, by simp, ih2⟩
      · show InboxResult.txEnv tx0 ::
          readsOf (entryLoop engine rest (engine evm tx0).1 dur).1 =
          InboxResult.txEnv tx0 :: consumed rest
        exact congrArg _ ih3
      · show tx0 :: commitsOf (entryLoop engine rest (engine evm tx0).1 dur).1 =
          tx0 :: txsOf (consumed rest)
        exact congrArg _ ih4
      · intro n tx h
        cases n with
        | zero =>
          rw [List.getElem?_cons_succ, List.getElem?_cons_zero] at h
          injection h with h1
          injection h1 with h2
          subst h2
          rfl
        | succ n' =>
          cases n' with
          | zero =>
            rw [List.getElem?_cons_succ, List.getElem?_cons_succ,
              List.getElem?_cons_zero] at h
            simp at h
          | succ n'' =>
            cases n'' with
            | zero =>
              obtain ⟨m0, tr', hhead⟩ :=
                entryLoop_starts_with_read engine rest (engine evm tx0).1 dur
              rw [List.getElem?_cons_succ, List.getElem?_cons_succ,
                List.getElem?_cons_succ, hhead] at h
              simp at h
            | succ n''' =>
              rw [List.getElem?_cons_succ, List.getElem?_cons_succ,
                List.getElem?_cons_succ] at h
              rw [List.getElem?_cons_succ, List.getElem?_cons_succ,
                List.getElem?_cons_succ]
              exact ih5 n''' tx h

/-- C1, counterexample: running the loop on an inbox holding one
transaction, with an engine that updates the in-memory EVM state, executes
and commits that transaction (the `execCommit` event, and the EVM state
moves from 0 to 5) yet performs no commit to the Durable State Store at
any point: the trace contains no `storeCommit` event and the durable store
is returned unchanged, so the claim that each transaction's commit to the
Store precedes the next read is false on this input — there is no commit
to the Store at all. -/
theorem c1_no_store_commit_counterexample :
    entryLoop (fun (s : Nat) (tx : Nat) => (s + tx, .ok (.success (.call []))))
        [.txEnv 5] 0 sAcct2 =
      ([.readMsg (.txEnv 5), .execCommit 5, .emitLog (.execute []),
        .readMsg .inboxEmpty], 5, sAcct2) ∧
    KEvent.storeCommit ∉ ([.readMsg (.txEnv (5 : Nat)), .execCommit 5,
      .emitLog (.execute []), .readMsg .inboxEmpty] : List (KEvent Nat)) :=
  ⟨rfl, by decide⟩

/-- Witness for C1 (amended): at the concrete one-transaction run, the
commit event at position 1 is immediately preceded by the read of its own
message at position 0. -/
theorem c1_loop_order_amended_witness :
    (entryLoop (fun (s : Nat) (tx : Nat) =>
        (s + tx, .ok (.success (.call [])))) [.txEnv 5] 0 sAcct2).1[0]? =
      some (.readMsg (.txEnv 5)) :=
  (c1_loop_order_amended (fun (s : Nat) (tx : Nat) =>
    (s + tx, .ok (.success (.call [])))) [.txEnv 5] 0 sAcct2).2.2.2.2 0 5 rfl
